import Mathlib

/-!
Shallow embedding of `src/src/specification.rs` (mattboardman/stock_broker):
the Specification pattern with And/Or/Xor combinators over an ordered list
of child predicates, plus the composite container's append/inspect API.
-/

namespace StockBroker

/-- A predicate tree: leaves are concrete `Specification<T>` implementors
(modelled by their verdict function), internal nodes are the three
combinator structs, each holding the ordered child list of its wrapped
`CompositeSpecification<T>`. -/
inductive Specification (T : Type) where
  | leaf (p : T → Bool)
  | AndSpecification (children : List (Specification T))
  | OrSpecification (children : List (Specification T))
  | XorSpecification (children : List (Specification T))

variable {T : Type}

mutual

/-- `Specification::is_satisfied_by`, dispatching on the concrete struct:
each combinator first checks `self.children().len() <= 0` and returns
`false`, then runs its loop over the children. -/
def is_satisfied_by : Specification T → T → Bool
  | .leaf p, candidate => p candidate
  | .AndSpecification l, candidate =>
      if l.length ≤ 0 then false else and_loop l candidate
  | .OrSpecification l, candidate =>
      if l.length ≤ 0 then false else or_loop l candidate
  | .XorSpecification l, candidate =>
      if l.length ≤ 0 then false else xor_loop l candidate false

/-- The `for child in self.children()` loop of `AndSpecification`:
returns `false` on the first child whose verdict is not true, else `true`
after the loop. -/
def and_loop : List (Specification T) → T → Bool
  | [], _ => true
  | child :: rest, candidate =>
      if !(is_satisfied_by child candidate) then false
      else and_loop rest candidate

/-- The `for child in self.children()` loop of `OrSpecification`:
returns `true` on the first child whose verdict is true, else `false`
after the loop. -/
def or_loop : List (Specification T) → T → Bool
  | [], _ => false
  | child :: rest, candidate =>
      if is_satisfied_by child candidate then true
      else or_loop rest candidate

/-- The `for child in self.children()` loop of `XorSpecification` with its
`flag` accumulator: a second true child returns `false`; after the loop the
source returns `true` (not `flag`). -/
def xor_loop : List (Specification T) → T → Bool → Bool
  | [], _, _ => true
  | child :: rest, candidate, flag =>
      match is_satisfied_by child candidate with
      | true => if flag then false else xor_loop rest candidate true
      | false => xor_loop rest candidate flag

end

/-- The child list a combinator node's `children()` accessor exposes
(a leaf has no composite, so no children). -/
def Specification.children : Specification T → List (Specification T)
  | .leaf _ => []
  | .AndSpecification l => l
  | .OrSpecification l => l
  | .XorSpecification l => l

/-- `CompositeSpecification<T>`: owns the ordered child sequence. -/
structure CompositeSpecification (T : Type) where
  child_specifications : List (Specification T)

/-- `CompositeSpecification::add_child_specifications`: `Vec::push`, i.e.
append the child at the end of the sequence. -/
def CompositeSpecification.add_child_specifications
    (s : CompositeSpecification T) (child : Specification T) :
    CompositeSpecification T :=
  { child_specifications := s.child_specifications ++ [child] }

/-- `CompositeSpecification::children`: a read-only view of the sequence. -/
def CompositeSpecification.children (s : CompositeSpecification T) :
    List (Specification T) :=
  s.child_specifications

/-- One call `self.is_satisfied_by(&candidate)`: the method takes `&self`,
so the call yields the boolean verdict and the tree as the caller still
holds it. -/
def eval_call (s : Specification T) (candidate : T) :
    Bool × Specification T :=
  (is_satisfied_by s candidate, s)

/-- Number of children of `l` whose verdict on `candidate` is true. -/
def true_count (l : List (Specification T)) (candidate : T) : Nat :=
  l.countP (fun s => is_satisfied_by s candidate)

/-- A leaf that is satisfied by every candidate (the tests' `TrueSpecification`). -/
def tleaf : Specification Unit := .leaf (fun _ => true)

/-- A leaf that is satisfied by no candidate (the tests' `FalseSpecification`). -/
def fleaf : Specification Unit := .leaf (fun _ => false)

/-- The And loop computes the conjunction of the children's verdicts. -/
theorem and_loop_eq_all (l : List (Specification T)) (c : T) :
    and_loop l c = l.all (fun s => is_satisfied_by s c) := by
  induction l with
  | nil => rfl
  | cons child rest ih =>
    simp only [and_loop, List.all_cons, ih]
    cases h : is_satisfied_by child c <;> simp [h]

/-- The Or loop computes the disjunction of the children's verdicts. -/
theorem or_loop_eq_any (l : List (Specification T)) (c : T) :
    or_loop l c = l.any (fun s => is_satisfied_by s c) := by
  induction l with
  | nil => rfl
  | cons child rest ih =>
    simp only [or_loop, List.any_cons, ih]
    cases h : is_satisfied_by child c <;> simp [h]

/-- The Xor loop returns true exactly when the number of true children,
counting the incoming flag, does not exceed one. -/
theorem xor_loop_eq_count (l : List (Specification T)) (c : T) (flag : Bool) :
    xor_loop l c flag = decide (true_count l c + flag.toNat ≤ 1) := by
  induction l generalizing flag with
  | nil => cases flag <;> rfl
  | cons child rest ih =>
    simp only [xor_loop, true_count, List.countP_cons]
    cases h : is_satisfied_by child c with
    | true =>
      cases flag with
      | true =>
        have hn : ¬ (List.countP (fun s => is_satisfied_by s c) rest
            + 1 + Bool.toNat true ≤ 1) := by
          simp only [Bool.toNat_true]
          omega
        simp [h, hn]
      | false =>
        simp [h, ih, true_count, Bool.toNat_true, Bool.toNat_false]
    | false =>
      simp [h, ih, true_count]

/-- Evaluation of an And node: false on empty children, else the
conjunction of the children's verdicts. -/
theorem and_spec_eval (l : List (Specification T)) (c : T) :
    is_satisfied_by (.AndSpecification l) c
      = (!l.isEmpty && l.all (fun s => is_satisfied_by s c)) := by
  cases l with
  | nil => rfl
  | cons a r => simp [is_satisfied_by, and_loop_eq_all]

/-- Evaluation of an Or node: false on empty children, else the
disjunction of the children's verdicts. -/
theorem or_spec_eval (l : List (Specification T)) (c : T) :
    is_satisfied_by (.OrSpecification l) c
      = (!l.isEmpty && l.any (fun s => is_satisfied_by s c)) := by
  cases l with
  | nil => rfl
  | cons a r => simp [is_satisfied_by, or_loop_eq_any]

/-- Evaluation of a Xor node: false on empty children, else true exactly
when at most one child verdict is true (the loop returns true, not the
flag, when it falls through). -/
theorem xor_spec_eval (l : List (Specification T)) (c : T) :
    is_satisfied_by (.XorSpecification l) c
      = (!l.isEmpty && decide (true_count l c ≤ 1)) := by
  cases l with
  | nil => rfl
  | cons a r =>
    simp [is_satisfied_by, xor_loop_eq_count]

/-- C1: the claim "Xor is true iff exactly one child is true" fails on the
source: with children `[F, F]` (zero true children) the Xor loop falls
through and returns `true`, while the claim requires `false`.  This theorem
evaluates the code at that failing input. -/
theorem C1_xor_all_false_evaluates_true :
    is_satisfied_by (.XorSpecification [fleaf, fleaf]) () = true
      ∧ true_count [fleaf, fleaf] () = 0 := by
  exact ⟨rfl, rfl⟩

/-- C2: with an empty child list, And, Or and Xor each return false on
every candidate. -/
theorem C2_empty_children_false (T : Type) (c : T) :
    is_satisfied_by (.AndSpecification ([] : List (Specification T))) c = false
      ∧ is_satisfied_by (.OrSpecification ([] : List (Specification T))) c = false
      ∧ is_satisfied_by (.XorSpecification ([] : List (Specification T))) c = false :=
  ⟨rfl, rfl, rfl⟩

/-- C3: on a non-empty child list, And returns true iff every child's
verdict is true; if some child's verdict is false, And returns false. -/
theorem C3_and_nonempty_iff_all (T : Type) (l : List (Specification T))
    (c : T) (h : l ≠ []) :
    (is_satisfied_by (.AndSpecification l) c = true
        ↔ ∀ s ∈ l, is_satisfied_by s c = true)
      ∧ ((∃ s ∈ l, is_satisfied_by s c = false)
        → is_satisfied_by (.AndSpecification l) c = false) := by
  have hne : l.isEmpty = false := by
    cases l with
    | nil => exact absurd rfl h
    | cons a r => rfl
  constructor
  · rw [and_spec_eval, hne]
    simp [List.all_eq_true]
  · rintro ⟨s, hs, hfalse⟩
    rw [and_spec_eval, hne]
    simp only [Bool.not_false, Bool.true_and]
    rw [List.all_eq_false]
    exact ⟨s, hs, by simp [hfalse]⟩

/-- C3 witness: instantiated at the single true leaf over `Unit`. -/
theorem C3_witness :
    ([tleaf] ≠ ([] : List (Specification Unit)))
      ∧ (is_satisfied_by (.AndSpecification [tleaf]) () = true
          ↔ ∀ s ∈ [tleaf], is_satisfied_by s () = true) :=
  ⟨by simp, (C3_and_nonempty_iff_all Unit [tleaf] () (by simp)).1⟩

/-- C4: on a non-empty child list, Or returns true iff at least one
child's verdict is true. -/
theorem C4_or_nonempty_iff_any (T : Type) (l : List (Specification T))
    (c : T) (h : l ≠ []) :
    is_satisfied_by (.OrSpecification l) c = true
      ↔ ∃ s ∈ l, is_satisfied_by s c = true := by
  have hne : l.isEmpty = false := by
    cases l with
    | nil => exact absurd rfl h
    | cons a r => rfl
  rw [or_spec_eval, hne]
  simp [List.any_eq_true]

/-- C4 witness: instantiated at the single true leaf over `Unit`. -/
theorem C4_witness :
    ([tleaf] ≠ ([] : List (Specification Unit)))
      ∧ (is_satisfied_by (.OrSpecification [tleaf]) () = true
          ↔ ∃ s ∈ [tleaf], is_satisfied_by s () = true) :=
  ⟨by simp, C4_or_nonempty_iff_any Unit [tleaf] () (by simp)⟩

/-- C5 counterexample: the child lists `[F]` and `[]` have the same number
of true-evaluating children (zero), yet Xor gives `true` on the first and
`false` on the second — so the result does not depend only on the count of
true children. -/
theorem C5_counterexample :
    true_count [fleaf] () = true_count ([] : List (Specification Unit)) ()
      ∧ is_satisfied_by (.XorSpecification [fleaf]) ()
          ≠ is_satisfied_by (.XorSpecification ([] : List (Specification Unit))) () := by
  exact ⟨rfl, by decide⟩

/-- C5 (amended): permuting the children never changes Xor's result, and
the result depends only on whether the child list is empty together with
the count of true-evaluating children, never on their positions. -/
theorem C5_xor_order_insensitive (T : Type) (l l' : List (Specification T))
    (c : T) :
    (l.Perm l'
        → is_satisfied_by (.XorSpecification l) c
            = is_satisfied_by (.XorSpecification l') c)
      ∧ ((l = [] ↔ l' = []) → true_count l c = true_count l' c
        → is_satisfied_by (.XorSpecification l) c
            = is_satisfied_by (.XorSpecification l') c) := by
  have hkey : ∀ m m' : List (Specification T), (m = [] ↔ m' = [])
      → true_count m c = true_count m' c
      → is_satisfied_by (.XorSpecification m) c
          = is_satisfied_by (.XorSpecification m') c := by
    intro m m' hemp hcnt
    rw [xor_spec_eval, xor_spec_eval, hcnt]
    have : m.isEmpty = m'.isEmpty := by
      cases m with
      | nil => simp [hemp.mp rfl]
      | cons a r =>
        cases m' with
        | nil => exact absurd (hemp.mpr rfl) (by simp)
        | cons b s => rfl
    rw [this]
  refine ⟨fun hperm => hkey l l' ?_ ?_, hkey l l'⟩
  · simp only [← List.length_eq_zero]
    rw [hperm.length_eq]
  · exact hperm.countP_eq _

/-- C5 witness: swapping the two children `[T, F]` leaves the Xor verdict
unchanged. -/
theorem C5_witness :
    ([tleaf, fleaf] : List (Specification Unit)).Perm [fleaf, tleaf]
      ∧ is_satisfied_by (.XorSpecification [tleaf, fleaf]) ()
          = is_satisfied_by (.XorSpecification [fleaf, tleaf]) () :=
  ⟨List.Perm.swap fleaf tleaf [],
    (C5_xor_order_insensitive Unit [tleaf, fleaf] [fleaf, tleaf] ()).1
      (List.Perm.swap fleaf tleaf [])⟩

/-- C6: `is_satisfied_by` takes `&self`: a call leaves the child list
(contents and length) unchanged, and re-evaluating the same tree on the
same candidate yields the same verdict. -/
theorem C6_eval_pure (T : Type) (s : Specification T) (c : T) :
    ((eval_call s c).2).children = s.children
      ∧ ((eval_call s c).2).children.length = s.children.length
      ∧ (eval_call ((eval_call s c).2) c).1 = (eval_call s c).1 :=
  ⟨rfl, rfl, rfl⟩

/-- C7: the nested tree `And([Or([F, T]), T])` evaluates to true on every
candidate. -/
theorem C7_nested_and_or (T : Type) (c : T) :
    is_satisfied_by
      (.AndSpecification
        [.OrSpecification [.leaf (fun _ => false), .leaf (fun _ => true)],
          .leaf (fun _ => true)]) c = true := rfl

/-- C8: `add_child_specifications` appends the child at the end of the
sequence (and, being total, cannot fail); `children` then returns the
previous sequence followed by the new child. -/
theorem C8_add_child_appends (T : Type) (s : CompositeSpecification T)
    (child : Specification T) :
    (s.add_child_specifications child).children = s.children ++ [child] :=
  rfl

/-- C9: if the child at position `i` is the first to evaluate false, And
returns false, and the verdict is unchanged under any replacement of the
children after position `i`. -/
theorem C9_and_first_false_determines (T : Type) (l : List (Specification T))
    (c : T) (i : Nat) (hi : i < l.length)
    (hf : is_satisfied_by (l.get ⟨i, hi⟩) c = false)
    (_hp : ∀ j (hj : j < i), is_satisfied_by (l.get ⟨j, Nat.lt_trans hj hi⟩) c = true) :
    is_satisfied_by (.AndSpecification l) c = false
      ∧ ∀ rest, is_satisfied_by (.AndSpecification (l.take (i + 1) ++ rest)) c = false := by
  have hmem : l.get ⟨i, hi⟩ ∈ l.take (i + 1) := by
    have h1 : i < (l.take (i + 1)).length := by
      simp [List.length_take]
      omega
    have h2 : (l.take (i + 1)).get ⟨i, h1⟩ = l.get ⟨i, hi⟩ := by
      simp [List.get_eq_getElem, List.getElem_take]
    exact h2 ▸ List.get_mem _ _ _
  have hfalse_all : ∀ rest,
      ((l.take (i + 1) ++ rest).all (fun s => is_satisfied_by s c)) = false := by
    intro rest
    rw [List.all_eq_false]
    exact ⟨l.get ⟨i, hi⟩, List.mem_append_left rest hmem, by simpa using hf⟩
  constructor
  · rw [and_spec_eval]
    rw [List.all_eq_false.mpr ⟨l.get ⟨i, hi⟩, List.get_mem l i hi, by simpa using hf⟩]
    simp
  · intro rest
    rw [and_spec_eval, hfalse_all rest]
    simp

/-- C9 witness: instantiated at the single false leaf over `Unit`, and with
the tail replaced by a true leaf. -/
theorem C9_witness :
    (0 < ([fleaf] : List (Specification Unit)).length)
      ∧ is_satisfied_by (.AndSpecification [fleaf]) () = false
      ∧ is_satisfied_by
          (.AndSpecification (([fleaf] : List (Specification Unit)).take 1 ++ [tleaf])) ()
            = false :=
  ⟨by decide,
    (C9_and_first_false_determines Unit [fleaf] () 0 (by decide) rfl
      (fun j hj => absurd hj (Nat.not_lt_zero j))).1,
    (C9_and_first_false_determines Unit [fleaf] () 0 (by decide) rfl
      (fun j hj => absurd hj (Nat.not_lt_zero j))).2 [tleaf]⟩

/-- C10: on the one-element child list `[x]`, And and Or each return
exactly the verdict of `x` on the candidate. -/
theorem C10_singleton_identity (T : Type) (x : Specification T) (c : T) :
    is_satisfied_by (.AndSpecification [x]) c = is_satisfied_by x c
      ∧ is_satisfied_by (.OrSpecification [x]) c = is_satisfied_by x c := by
  constructor
  · rw [and_spec_eval]
    cases h : is_satisfied_by x c <;> simp [h]
  · rw [or_spec_eval]
    cases h : is_satisfied_by x c <;> simp [h]

end StockBroker
